import Mathlib

/-!
Verification of the crypto-dashboard real-time price pipeline.

Shallow embedding of the server core (`dataService`, the socket event
handlers, the rate limiter and the queue-consume wrapper) translated from
the TypeScript source.  Prices and random samples are modelled as rational
numbers, wall-clock instants as integers (milliseconds).  `Math.random()`
values are passed in explicitly as parameters ranging over `[0,1)`.
-/

/-- The supported crypto symbols (`SYMBOLS` in `dataService`). -/
def SYMBOLS : List String :=
  ["BTC", "ETH", "SOL", "ADA", "DOT", "AVAX", "MATIC", "LINK"]

/-- Initial prices in USD (`initialPrices` in `dataService`), as a total
map; only the eight known symbols are ever looked up. -/
def initialPrices (s : String) : ℚ :=
  if s = "BTC" then 45000
  else if s = "ETH" then 2500
  else if s = "SOL" then 100
  else if s = "ADA" then 1/2
  else if s = "DOT" then 15/2
  else if s = "AVAX" then 35
  else if s = "MATIC" then 85/100
  else if s = "LINK" then 15
  else 0

/-- The constant subtracted from the random sample in
`generatePriceChange` (the literal `0.48` in
`const change = (Math.random() - 0.48) * volatility / 100`). -/
def bias : ℚ := 48/100

/-- `generatePriceChange(currentPrice, volatility)` from `dataService`,
with the `Math.random()` sample `rand` made explicit:
`change = (rand - 0.48) * volatility / 100; return currentPrice * (1 + change)`. -/
def generatePriceChange (currentPrice volatility rand : ℚ) : ℚ :=
  currentPrice * (1 + (rand - bias) * volatility / 100)

/-- The per-symbol volatility selected inside `updatePrices`:
default `0.2`, overridden to `0.15` for BTC/ETH and `0.3` for SOL/AVAX. -/
def volatilityFor (symbol : String) : ℚ :=
  let v : ℚ := 2/10
  let v := if symbol = "BTC" ∨ symbol = "ETH" then 15/100 else v
  let v := if symbol = "SOL" ∨ symbol = "AVAX" then 3/10 else v
  v

/-- One entry of `priceHistory`: `{price24hAgo, lastUpdate}`. -/
structure HistEntry where
  price24hAgo : ℚ
  lastUpdate : ℤ
deriving DecidableEq, Repr

/-- The mutable price state of `dataService`: `currentPrices` and
`priceHistory`, as total maps (the source only ever reads keys it has
initialised). -/
structure PriceState where
  currentPrices : String → ℚ
  priceHistory : String → HistEntry

/-- The hourly rebase rule shared by `updatePrices` and the consumer:
when `now - priceHistory[sym].lastUpdate > 3600000`, set
`price24hAgo := p` and `lastUpdate := now`; otherwise leave the history
untouched. -/
def rebaseHist (hist : String → HistEntry) (sym : String) (p : ℚ) (now : ℤ) :
    String → HistEntry :=
  if now - (hist sym).lastUpdate > 3600000
  then fun x => if x = sym then ⟨p, now⟩ else hist x
  else hist

/-- Applying one price fact: `currentPrices[sym] = p` followed by the
rebase check (lines 140-147 of `dataService` for the consumer path; the
generator path applies the same two steps with the generated price). -/
def applyFact (st : PriceState) (sym : String) (p : ℚ) (now : ℤ) : PriceState :=
  ⟨fun x => if x = sym then p else st.currentPrices x,
   rebaseHist st.priceHistory sym p now⟩

/-- The body of the `SYMBOLS.forEach` loop in `updatePrices` for one
symbol: pick the volatility tier, run the random walk and apply it. -/
def updateStep (st : PriceState) (now : ℤ) (rands : String → ℚ) (sym : String) :
    PriceState :=
  applyFact st sym
    (generatePriceChange (st.currentPrices sym) (volatilityFor sym) (rands sym)) now

/-- `updatePrices()` (the internal generator tick), with one random
sample per symbol supplied through `rands`. -/
def updatePrices (st : PriceState) (now : ℤ) (rands : String → ℚ) : PriceState :=
  SYMBOLS.foldl (fun s sym => updateStep s now rands sym) st

/-- The price state right after module initialisation: current prices are
the initial prices and every history entry holds the initial price with
`lastUpdate = t0`. -/
def initState (t0 : ℤ) : PriceState :=
  ⟨initialPrices, fun s => ⟨initialPrices s, t0⟩⟩

lemma volatilityFor_pos (s : String) : 0 < volatilityFor s := by
  unfold volatilityFor
  dsimp only
  split_ifs <;> norm_num

lemma volatilityFor_le (s : String) : volatilityFor s ≤ 3/10 := by
  unfold volatilityFor
  dsimp only
  split_ifs <;> norm_num

lemma generatePriceChange_pos {p v r : ℚ} (hp : 0 < p) (hv0 : 0 < v)
    (hv1 : v ≤ 3/10) (hr0 : 0 ≤ r) (_hr1 : r < 1) :
    0 < generatePriceChange p v r := by
  unfold generatePriceChange bias
  have hfac : 0 < 1 + (r - 48/100) * v / 100 := by nlinarith
  exact mul_pos hp hfac

lemma updateStep_currentPrices (st : PriceState) (now : ℤ) (rands : String → ℚ)
    (sym x : String) :
    (updateStep st now rands sym).currentPrices x =
      if x = sym
      then generatePriceChange (st.currentPrices sym) (volatilityFor sym) (rands sym)
      else st.currentPrices x := rfl

lemma foldl_updateStep_pos (l : List String) (st : PriceState) (now : ℤ)
    (rands : String → ℚ) (sym : String) (hr0 : 0 ≤ rands sym)
    (hr1 : rands sym < 1) (hp : 0 < st.currentPrices sym) :
    0 < (l.foldl (fun s x => updateStep s now rands x) st).currentPrices sym := by
  induction l generalizing st with
  | nil => exact hp
  | cons hd tl ih =>
      simp only [List.foldl_cons]
      apply ih
      rw [updateStep_currentPrices]
      by_cases h : sym = hd
      · subst h
        simp only [if_pos rfl]
        exact generatePriceChange_pos hp (volatilityFor_pos sym)
          (volatilityFor_le sym) hr0 hr1
      · simpa [h] using hp

/-- C1. For every symbol with a strictly positive current price, one
generator tick (`updatePrices`) leaves that symbol's price strictly
positive for every random sample in `[0,1)`; consequently a walk step
never produces a non-positive price, so the clause "whenever a step would
produce a non-positive price the previous price is retained" holds
(vacuously: the antecedent is impossible). -/
theorem updatePrices_preserves_positive (st : PriceState) (now : ℤ)
    (rands : String → ℚ) (sym : String) (hr0 : 0 ≤ rands sym)
    (hr1 : rands sym < 1) (hp : 0 < st.currentPrices sym) :
    0 < (updatePrices st now rands).currentPrices sym ∧
    ((updatePrices st now rands).currentPrices sym ≤ 0 →
      (updatePrices st now rands).currentPrices sym = st.currentPrices sym) := by
  have hpos := foldl_updateStep_pos SYMBOLS st now rands sym hr0 hr1 hp
  exact ⟨hpos, fun hle => absurd hpos (not_lt.mpr hle)⟩

/-- C1 witness: the theorem applied at the initial state, symbol BTC and
the adversarial sample `rand = 0` for every symbol. -/
theorem updatePrices_preserves_positive_witness :
    0 < (updatePrices (initState 0) 0 (fun _ => 0)).currentPrices "BTC" :=
  (updatePrices_preserves_positive (initState 0) 0 (fun _ => 0) "BTC"
    (by norm_num) (by norm_num) (by norm_num [initState, initialPrices])).1

/-- C4 counterexample: the constant subtracted from the random sample in
`generatePriceChange` is `0.48`, which is not strictly greater than `0.5`
as the claim states. -/
theorem bias_not_above_half : ¬ (1/2 : ℚ) < bias := by
  norm_num [bias]

/-- C4 (amended): each generator step computes
`newPrice = price * (1 + (rand - bias) * volatility / 100)` where `bias`
is the constant `0.48` — strictly *less* than `0.5`, which is what yields
the mild upward drift since the random sample has mean `0.5` — and the
volatility is `0.15` for BTC and ETH, `0.3` for SOL and AVAX, and `0.2`
for every other symbol. -/
theorem generator_step_formula :
    (∀ p v r : ℚ, generatePriceChange p v r = p * (1 + (r - bias) * v / 100)) ∧
    bias = 48/100 ∧ bias < 1/2 ∧
    volatilityFor "BTC" = 15/100 ∧ volatilityFor "ETH" = 15/100 ∧
    volatilityFor "SOL" = 3/10 ∧ volatilityFor "AVAX" = 3/10 ∧
    (∀ s : String, s ∉ (["BTC", "ETH", "SOL", "AVAX"] : List String) →
      volatilityFor s = 2/10) := by
  refine ⟨fun p v r => rfl, rfl, by norm_num [bias], rfl, rfl, rfl, rfl, ?_⟩
  intro s hs
  simp only [List.mem_cons, List.not_mem_nil, or_false, not_or] at hs
  obtain ⟨h1, h2, h3, h4⟩ := hs
  simp [volatilityFor, h1, h2, h3, h4]

/-- C4 witness: the amended theorem applied at concrete inputs, including
the non-tier symbol ADA. -/
theorem generator_step_formula_witness :
    generatePriceChange 100 1 (49/100) = 100 * (1 + (49/100 - bias) * 1 / 100) ∧
    volatilityFor "ADA" = 2/10 :=
  ⟨generator_step_formula.1 100 1 (49/100),
   generator_step_formula.2.2.2.2.2.2.2 "ADA" (by decide)⟩

/-- C6. Applying a fact for a symbol replaces that symbol's
`referencePrice` (`price24hAgo`) with the just-applied current price and
resets `lastRebasedAt` (`lastUpdate`) exactly when the elapsed wall-clock
time since the last rebase strictly exceeds one hour (3600000 ms);
otherwise the whole history entry is left unchanged. -/
theorem applyFact_rebase (st : PriceState) (sym : String) (p : ℚ) (now : ℤ) :
    (now - (st.priceHistory sym).lastUpdate > 3600000 →
      (applyFact st sym p now).priceHistory sym =
        ⟨(applyFact st sym p now).currentPrices sym, now⟩) ∧
    (¬ now - (st.priceHistory sym).lastUpdate > 3600000 →
      (applyFact st sym p now).priceHistory sym = st.priceHistory sym) := by
  constructor
  · intro h
    simp [applyFact, rebaseHist, h]
  · intro h
    simp [applyFact, rebaseHist, h]

/-- C6 witness: starting from the initial state rebased at time 0, a fact
applied 3601 s later updates the entry and one applied 3599 s after a
rebase does not. -/
theorem applyFact_rebase_witness :
    (applyFact (initState 0) "BTC" 50000 3601000).priceHistory "BTC" =
      ⟨(applyFact (initState 0) "BTC" 50000 3601000).currentPrices "BTC", 3601000⟩ ∧
    (applyFact (initState 0) "BTC" 50000 3599000).priceHistory "BTC" =
      (initState 0).priceHistory "BTC" :=
  ⟨(applyFact_rebase (initState 0) "BTC" 50000 3601000).1 (by decide),
   (applyFact_rebase (initState 0) "BTC" 50000 3599000).2 (by decide)⟩

/-- The broadcast payload `PriceData` of `dataService`. -/
structure PriceData where
  symbol : String
  price : ℚ
  change24h : ℚ
  timestamp : ℤ
  volume24h : ℚ
  marketCap : ℚ
deriving DecidableEq, Repr

/-- `parseFloat(x.toFixed(2))`, idealised on the rationals: rounding to
the nearest hundredth. -/
def toFixed2 (x : ℚ) : ℚ := (round (x * 100) : ℤ) / 100

/-- `getPriceData(symbol)` from `dataService`, with the two
`Math.random()` samples used for the mock volume and market cap made
explicit. -/
def getPriceData (st : PriceState) (now : ℤ) (randVol randCap : ℚ)
    (symbol : String) : PriceData :=
  let currentPrice := st.currentPrices symbol
  let price24hAgo := (st.priceHistory symbol).price24hAgo
  let change24h := (currentPrice - price24hAgo) / price24hAgo * 100
  { symbol := symbol
    price := currentPrice
    change24h := toFixed2 change24h
    timestamp := now
    volume24h := (⌊randVol * 10000000000⌋ : ℤ)
    marketCap := (⌊currentPrice * (randCap * 1000000000)⌋ : ℤ) }

/-- `getCurrentPrices()`: one `PriceData` per known symbol, with
per-symbol random samples. -/
def getCurrentPrices (st : PriceState) (now : ℤ) (rv rc : String → ℚ) :
    List PriceData :=
  SYMBOLS.map (fun s => getPriceData st now (rv s) (rc s) s)

/-- Outcome of the external-cache read in `getPrice`: a value, a miss, or
the unavailable short-circuit (the wrapper returns null when Redis is
down, and `getPrice` additionally swallows a thrown error). -/
inductive CacheResult where
  | ok (v : Option PriceData)
  | unavailable

/-- The memory-cache half of `broadcastUpdates`: every broadcast fact is
stored in the fallback map under `price:<symbol>` with the current
timestamp. -/
def broadcastUpdatesMem (mem : String → Option (PriceData × ℤ))
    (priceData : List PriceData) (now : ℤ) : String → Option (PriceData × ℤ) :=
  priceData.foldl
    (fun m d => fun x => if x = "price:" ++ d.symbol then some (d, now) else m x) mem

/-- `getPrice(symbol)` from `dataService`: external cache first, then the
memory fallback guarded by `Date.now() - timestamp < 3000`, then fresh
generation via `getCurrentPrices().find(...) || null`. -/
def getPrice (redis : CacheResult) (mem : String → Option (PriceData × ℤ))
    (st : PriceState) (now : ℤ) (rv rc : String → ℚ) (symbol : String) :
    Option PriceData :=
  match redis with
  | .ok (some cached) => some cached
  | _ =>
    match mem ("price:" ++ symbol) with
    | some entry =>
        if now - entry.2 < 3000 then some entry.1
        else (getCurrentPrices st now rv rc).find? (fun p => p.symbol == symbol)
    | none => (getCurrentPrices st now rv rc).find? (fun p => p.symbol == symbol)

/-- A fixed concrete fact used in concrete evaluations below. -/
def sampleFact : PriceData :=
  { symbol := "BTC", price := 45000, change24h := 0, timestamp := 0,
    volume24h := 0, marketCap := 0 }

lemma getPriceData_symbol (st : PriceState) (now : ℤ) (a b : ℚ) (s : String) :
    (getPriceData st now a b s).symbol = s := rfl

lemma find?_getPriceData_of_mem (st : PriceState) (now : ℤ) (rv rc : String → ℚ)
    (sym : String) (l : List String) (h : sym ∈ l) :
    (l.map (fun s => getPriceData st now (rv s) (rc s) s)).find?
        (fun p => p.symbol == sym) =
      some (getPriceData st now (rv sym) (rc sym) sym) := by
  induction l with
  | nil => cases h
  | cons hd tl ih =>
      by_cases hhd : hd = sym
      · subst hhd
        simp [List.find?, getPriceData_symbol]
      · have htl : sym ∈ tl := by
          rcases List.mem_cons.mp h with h1 | h1
          · exact absurd h1.symm hhd
          · exact h1
        have hsym : ((getPriceData st now (rv hd) (rc hd) hd).symbol == sym) = false := by
          simp [getPriceData_symbol, hhd]
        simp [List.find?, hsym, ih htl]

/-- C2 counterexample: with the external cache unavailable, after a prior
write of `sampleFact` for BTC at time 0, a read at time 3000 (TTL
expired) does **not** return absent — `getPrice` falls through to fresh
generation and returns a value. -/
theorem getPrice_expired_not_absent :
    getPrice .unavailable (broadcastUpdatesMem (fun _ => none) [sampleFact] 0)
      (initState 0) 3000 (fun _ => 0) (fun _ => 0) "BTC" ≠ none := by
  decide

/-- C2 (amended): with the external cache unavailable, a read after a
prior write for the symbol returns the previously written value from the
fallback map when `now - storedAt < 3000 ms`; once the TTL window has
expired the fallback entry is ignored and `getPrice` instead returns a
freshly generated `PriceData` for the symbol (so for every known symbol
the result is present, not absent). -/
theorem getPrice_fallback (mem : String → Option (PriceData × ℤ))
    (st : PriceState) (now t0 : ℤ) (rv rc : String → ℚ) (sym : String)
    (d : PriceData) (hmem : mem ("price:" ++ sym) = some (d, t0)) :
    (now - t0 < 3000 → getPrice .unavailable mem st now rv rc sym = some d) ∧
    (¬ now - t0 < 3000 → sym ∈ SYMBOLS →
      getPrice .unavailable mem st now rv rc sym =
        some (getPriceData st now (rv sym) (rc sym) sym)) := by
  constructor
  · intro h
    simp [getPrice, hmem, h]
  · intro h hsym
    simp only [getPrice, hmem, if_neg h]
    exact find?_getPriceData_of_mem st now rv rc sym SYMBOLS hsym

/-- C2 witness: the amended theorem at a concrete prior write (time 0)
read back at times 2999 (within TTL) and 3000 (expired). -/
theorem getPrice_fallback_witness :
    getPrice .unavailable (fun x => if x = "price:BTC" then some (sampleFact, 0) else none)
      (initState 0) 2999 (fun _ => 0) (fun _ => 0) "BTC" = some sampleFact ∧
    getPrice .unavailable (fun x => if x = "price:BTC" then some (sampleFact, 0) else none)
      (initState 0) 3000 (fun _ => 0) (fun _ => 0) "BTC" =
      some (getPriceData (initState 0) 3000 0 0 "BTC") :=
  ⟨(getPrice_fallback _ (initState 0) 2999 0 (fun _ => 0) (fun _ => 0) "BTC"
      sampleFact (by decide)).1 (by decide),
   (getPrice_fallback _ (initState 0) 3000 0 (fun _ => 0) (fun _ => 0) "BTC"
      sampleFact (by decide)).2 (by decide) (by decide)⟩

/-- Events a socket handler can emit back to its own connection. -/
inductive OutEvent where
  | error (msg : String)
  | subscribed (symbols : List String)
  | unsubscribed (symbols : List String)
  | pong (timestamp : ℤ)
deriving DecidableEq, Repr

/-- The `string | string[]` argument of `subscribe`/`unsubscribe`. -/
inductive SymbolsArg where
  | single (s : String)
  | list (l : List String)

/-- The `if (!Array.isArray(symbols)) symbols = [symbols]` wrapping. -/
def SymbolsArg.toList : SymbolsArg → List String
  | .single s => [s]
  | .list l => l

/-- `socket.join(room)`: socket.io rooms form a set, so joining an
already-joined room is a no-op. -/
def joinRoom (rooms : List String) (r : String) : List String :=
  if r ∈ rooms then rooms else rooms ++ [r]

/-- `socket.leave(room)`: removes the room; absence is a no-op. -/
def leaveRoom (rooms : List String) (r : String) : List String :=
  rooms.filter (fun x => x != r)

/-- The `subscribe` handler: on rate limit, emit an `error` event and
return; otherwise wrap the argument, join `crypto:<symbol>` for each
symbol contained in `SYMBOLS`, and emit `subscribed` with the wrapped
argument. Returns the emitted events and the connection's new room set. -/
def onSubscribe (limited : Bool) (rooms : List String) (arg : SymbolsArg) :
    List OutEvent × List String :=
  if limited then ([.error "Rate limit exceeded"], rooms)
  else
    let symbols := arg.toList
    let newRooms := symbols.foldl
      (fun r sym => if sym ∈ SYMBOLS then joinRoom r ("crypto:" ++ sym) else r) rooms
    ([.subscribed symbols], newRooms)

/-- The `unsubscribe` handler: on rate limit, return silently; otherwise
wrap the argument, leave `crypto:<symbol>` for every listed symbol
(no known-set check) and emit `unsubscribed` with the wrapped argument. -/
def onUnsubscribe (limited : Bool) (rooms : List String) (arg : SymbolsArg) :
    List OutEvent × List String :=
  if limited then ([], rooms)
  else
    let symbols := arg.toList
    let newRooms := symbols.foldl (fun r sym => leaveRoom r ("crypto:" ++ sym)) rooms
    ([.unsubscribed symbols], newRooms)

/-- The `ping` handler: on rate limit, return silently; otherwise echo a
`pong` with the client timestamp. -/
def onPing (limited : Bool) (timestamp : ℤ) : List OutEvent :=
  if limited then [] else [.pong timestamp]

/-- C3 counterexample: a rate-limited `unsubscribe` emits **no** event at
all — in particular no `error` event, contrary to the claim. -/
theorem rateLimited_unsubscribe_silent :
    onUnsubscribe true ["crypto:all"] (.single "BTC") = ([], ["crypto:all"]) := by
  rfl

/-- C3 (amended): while the sender's rate limit is exceeded, a
`subscribe` request is answered with an `error` event and causes no
membership change, while `unsubscribe` and `ping` requests are silently
dropped — no reply event of any kind and no membership change. -/
theorem rateLimited_handlers (rooms : List String) (arg : SymbolsArg) (ts : ℤ) :
    onSubscribe true rooms arg = ([.error "Rate limit exceeded"], rooms) ∧
    onUnsubscribe true rooms arg = ([], rooms) ∧
    onPing true ts = [] :=
  ⟨rfl, rfl, rfl⟩

lemma mem_joinRoom (rooms : List String) (r x : String) :
    x ∈ joinRoom rooms r ↔ x ∈ rooms ∨ x = r := by
  unfold joinRoom
  split_ifs with h
  · constructor
    · exact fun hx => Or.inl hx
    · rintro (hx | rfl) <;> [exact hx; exact h]
  · simp [List.mem_append]

lemma leaveRoom_of_not_mem (rooms : List String) (r : String) (h : r ∉ rooms) :
    leaveRoom rooms r = rooms := by
  unfold leaveRoom
  apply List.filter_eq_self.mpr
  intro a ha
  simp only [bne_iff_ne, ne_eq]
  rintro rfl
  exact h ha

lemma leaveRoom_idem (rooms : List String) (r : String) :
    leaveRoom (leaveRoom rooms r) r = leaveRoom rooms r := by
  apply leaveRoom_of_not_mem
  unfold leaveRoom
  intro hmem
  have := List.of_mem_filter hmem
  simp at this

/-- C8. A non-rate-limited `subscribe` for one symbol leaves the
connection a member of that symbol's group iff the symbol is known or the
connection was already a member (so unknown symbols are silently ignored
and change nothing); `unsubscribe` for a non-member symbol is a no-op on
the rooms, repeating it is idempotent, and it never emits an `error`
event. -/
theorem subscribe_unsubscribe_membership (rooms : List String) (sym : String) :
    (("crypto:" ++ sym) ∈ (onSubscribe false rooms (.single sym)).2 ↔
      sym ∈ SYMBOLS ∨ ("crypto:" ++ sym) ∈ rooms) ∧
    (sym ∉ SYMBOLS → (onSubscribe false rooms (.single sym)).2 = rooms) ∧
    (("crypto:" ++ sym) ∉ rooms →
      (onUnsubscribe false rooms (.single sym)).2 = rooms) ∧
    ((onUnsubscribe false (onUnsubscribe false rooms (.single sym)).2 (.single sym)).2 =
      (onUnsubscribe false rooms (.single sym)).2) ∧
    (∀ e ∈ (onUnsubscribe false rooms (.single sym)).1, ∀ m, e ≠ .error m) := by
  refine ⟨?_, ?_, ?_, ?_, ?_⟩
  · by_cases h : sym ∈ SYMBOLS
    · simp only [onSubscribe, SymbolsArg.toList, List.foldl_cons, List.foldl_nil,
        if_pos h, if_neg Bool.false_ne_true, mem_joinRoom]
      tauto
    · simp [onSubscribe, SymbolsArg.toList, h]
  · intro h
    simp [onSubscribe, SymbolsArg.toList, h]
  · intro h
    simpa [onUnsubscribe, SymbolsArg.toList] using leaveRoom_of_not_mem rooms _ h
  · simpa [onUnsubscribe, SymbolsArg.toList] using leaveRoom_idem rooms ("crypto:" ++ sym)
  · intro e he m
    simp only [onUnsubscribe, if_neg Bool.false_ne_true] at he
    simp only [List.mem_singleton] at he
    subst he
    exact fun hc => OutEvent.noConfusion hc

/-- C8 witness: concrete checks — subscribing to the unknown symbol
"DOGE" changes nothing, and unsubscribing a never-subscribed symbol is a
no-op. -/
theorem subscribe_unsubscribe_membership_witness :
    (onSubscribe false ["crypto:all"] (.single "DOGE")).2 = ["crypto:all"] ∧
    (onUnsubscribe false ["crypto:all"] (.single "BTC")).2 = ["crypto:all"] :=
  ⟨(subscribe_unsubscribe_membership ["crypto:all"] "DOGE").2.1 (by decide),
   (subscribe_unsubscribe_membership ["crypto:all"] "BTC").2.2.1 (by decide)⟩

/-- C10. A non-rate-limited `subscribe` acknowledges with a single
`subscribed` event that echoes exactly the wrapped request — a lone
symbol becomes a one-element list — regardless of whether the symbols are
known (unknown symbols are echoed even though no group was joined). -/
theorem subscribe_ack_echoes (rooms : List String) (arg : SymbolsArg) :
    (onSubscribe false rooms arg).1 = [.subscribed arg.toList] ∧
    (∀ s : String, (SymbolsArg.single s).toList = [s]) :=
  ⟨rfl, fun _ => rfl⟩

/-- Default `MAX_MESSAGES_PER_SECOND` of the rate limiter. -/
def MAX_MESSAGES_PER_SECOND : ℕ := 100

/-- Per-client rate-limiter state `{count, resetAt}`. -/
structure Limiter where
  count : ℕ
  resetAt : ℤ
deriving DecidableEq, Repr

/-- `isRateLimited(clientId)` from `rateLimiter.ts`, for one fixed client:
takes that client's current entry (or `none`) and the clock, returns the
boolean answer and the updated entry. Missing entry: create
`{count: 1, resetAt: now + 1000}` and answer `false`; expired window
(`now > resetAt`): reset to count 1 and answer `false`; otherwise
increment the count and answer `count > MAX_MESSAGES_PER_SECOND`. -/
def isRateLimited (st : Option Limiter) (now : ℤ) : Bool × Limiter :=
  match st with
  | none => (false, ⟨1, now + 1000⟩)
  | some l =>
      if now > l.resetAt then (false, ⟨1, now + 1000⟩)
      else (decide (l.count + 1 > MAX_MESSAGES_PER_SECOND), ⟨l.count + 1, l.resetAt⟩)

/-- The state and answer after the `(n+1)`-st call for a fresh client,
the `i`-th call happening at time `times i`. -/
def callSeq (times : ℕ → ℤ) : ℕ → Option Limiter × Bool
  | 0 =>
      let r := isRateLimited none (times 0)
      (some r.2, r.1)
  | n + 1 =>
      let r := isRateLimited (callSeq times n).1 (times (n + 1))
      (some r.2, r.1)

lemma callSeq_inWindow (times : ℕ → ℤ) (n : ℕ)
    (hw : ∀ i, 1 ≤ i → i ≤ n → ¬ times i > times 0 + 1000) :
    (callSeq times n).1 = some ⟨n + 1, times 0 + 1000⟩ ∧
    ((callSeq times n).2 = true ↔ n + 1 > MAX_MESSAGES_PER_SECOND) := by
  induction n with
  | zero =>
      constructor
      · rfl
      · simp [callSeq, isRateLimited, MAX_MESSAGES_PER_SECOND]
  | succ n ih =>
      have hw' : ∀ i, 1 ≤ i → i ≤ n → ¬ times i > times 0 + 1000 :=
        fun i h1 h2 => hw i h1 (Nat.le_succ_of_le h2)
      obtain ⟨hst, _⟩ := ih hw'
      have ht : ¬ times (n + 1) > times 0 + 1000 :=
        hw (n + 1) (Nat.succ_le_succ (Nat.zero_le n)) (le_refl _)
      constructor
      · simp [callSeq, hst, isRateLimited, ht]
      · simp [callSeq, hst, isRateLimited, ht]

/-- C5. For a fixed connection id with threshold 100: the first call
creates state with count 1 and a one-second window and answers
not-limited; every one of the calls 1–100 made within that window answers
not-limited; call 101 within the window answers limited; and any call
strictly after a window expires resets the count to 1, opens a new
one-second window, and answers not-limited. -/
theorem rateLimiter_window (times : ℕ → ℤ)
    (hw : ∀ i, 1 ≤ i → i ≤ 100 → ¬ times i > times 0 + 1000) :
    (isRateLimited none (times 0) = (false, ⟨1, times 0 + 1000⟩)) ∧
    (∀ k, k ≤ 99 → (callSeq times k).2 = false) ∧
    ((callSeq times 100).2 = true) ∧
    (∀ (l : Limiter) (t : ℤ), t > l.resetAt →
      isRateLimited (some l) t = (false, ⟨1, t + 1000⟩)) := by
  refine ⟨rfl, ?_, ?_, ?_⟩
  · intro k hk
    have hwk : ∀ i, 1 ≤ i → i ≤ k → ¬ times i > times 0 + 1000 :=
      fun i h1 h2 => hw i h1 (h2.trans (hk.trans (by norm_num)))
    have h := (callSeq_inWindow times k hwk).2
    rw [Bool.eq_false_iff]
    intro htrue
    have := h.mp htrue
    simp only [MAX_MESSAGES_PER_SECOND] at this
    omega
  · exact (callSeq_inWindow times 100 hw).2.mpr (by norm_num [MAX_MESSAGES_PER_SECOND])
  · intro l t ht
    simp [isRateLimited, ht]

/-- C5 witness: all calls at time 0 — call 6 is not limited, call 101 is,
and a call at time 11 against a window that ended at time 10 resets the
state. -/
theorem rateLimiter_window_witness :
    (callSeq (fun _ => 0) 5).2 = false ∧
    (callSeq (fun _ => 0) 100).2 = true ∧
    isRateLimited (some ⟨7, 10⟩) 11 = (false, ⟨1, 1011⟩) :=
  ⟨(rateLimiter_window (fun _ => 0) (by intro i h1 h2; norm_num)).2.1 5 (by norm_num),
   (rateLimiter_window (fun _ => 0) (by intro i h1 h2; norm_num)).2.2.1,
   (rateLimiter_window (fun _ => 0) (by intro i h1 h2; norm_num)).2.2.2
     ⟨7, 10⟩ 11 (by norm_num)⟩

/-- `updateBuffer.set(data.symbol, fullData)`: JS `Map.set` keyed by the
fact's symbol — update the existing entry in place, or append a new one. -/
def stage : List (String × PriceData) → PriceData → List (String × PriceData)
  | [], d => [(d.symbol, d)]
  | e :: rest, d => if e.1 = d.symbol then (e.1, d) :: rest else e :: stage rest d

/-- The drain step of the broadcast loop:
`Array.from(updateBuffer.values())` followed by `updateBuffer.clear()`. -/
def drain (buf : List (String × PriceData)) :
    List PriceData × List (String × PriceData) :=
  (buf.map Prod.snd, [])

/-- `Map.get` on the buffer. -/
def lookupBuf (buf : List (String × PriceData)) (sym : String) : Option PriceData :=
  (buf.find? (fun e => e.1 == sym)).map Prod.snd

/-- One operation on the broadcast buffer: a consumer staging or the
broadcast tick draining (the event loop serialises them). -/
inductive BufOp where
  | stageOp (d : PriceData)
  | drainOp

/-- Run a sequence of interleaved buffer operations. -/
def runOps : List BufOp → List (String × PriceData) → List (String × PriceData)
  | [], buf => buf
  | .stageOp d :: rest, buf => runOps rest (stage buf d)
  | .drainOp :: rest, buf => runOps rest (drain buf).2

/-- The buffer holds at most one entry per symbol. -/
def KeysNodup (buf : List (String × PriceData)) : Prop :=
  (buf.map Prod.fst).Nodup

instance (buf : List (String × PriceData)) : Decidable (KeysNodup buf) :=
  inferInstanceAs (Decidable ((buf.map Prod.fst).Nodup))

lemma stage_keys_mem (buf : List (String × PriceData)) (d : PriceData) (x : String)
    (hx : x ∈ (stage buf d).map Prod.fst) :
    x ∈ buf.map Prod.fst ∨ x = d.symbol := by
  induction buf with
  | nil => simpa [stage] using hx
  | cons e rest ih =>
      by_cases h : e.1 = d.symbol
      · simp only [stage, if_pos h, List.map_cons, List.mem_cons] at hx ⊢
        tauto
      · simp only [stage, if_neg h, List.map_cons, List.mem_cons] at hx ⊢
        rcases hx with h1 | h1
        · exact Or.inl (Or.inl h1)
        · rcases ih h1 with h2 | h2
          · exact Or.inl (Or.inr h2)
          · exact Or.inr h2

lemma stage_nodup (buf : List (String × PriceData)) (d : PriceData)
    (hn : KeysNodup buf) : KeysNodup (stage buf d) := by
  induction buf with
  | nil => simp [stage, KeysNodup]
  | cons e rest ih =>
      unfold KeysNodup at hn ⊢
      simp only [List.map_cons, List.nodup_cons] at hn
      by_cases h : e.1 = d.symbol
      · simp only [stage, if_pos h, List.map_cons, List.nodup_cons]
        exact hn
      · simp only [stage, if_neg h, List.map_cons, List.nodup_cons]
        refine ⟨?_, ih hn.2⟩
        intro hmem
        rcases stage_keys_mem rest d e.1 hmem with h1 | h1
        · exact hn.1 h1
        · exact h h1

lemma lookupBuf_stage_self (buf : List (String × PriceData)) (d : PriceData) :
    lookupBuf (stage buf d) d.symbol = some d := by
  induction buf with
  | nil => simp [stage, lookupBuf, List.find?]
  | cons e rest ih =>
      by_cases h : e.1 = d.symbol
      · simp [stage, if_pos h, lookupBuf, List.find?, h]
      · have hb : (e.1 == d.symbol) = false := beq_eq_false_iff_ne.mpr h
        simp only [stage, if_neg h]
        simpa [lookupBuf, List.find?, hb] using ih

lemma lookupBuf_stage_other (buf : List (String × PriceData)) (d : PriceData)
    (s : String) (hs : s ≠ d.symbol) :
    lookupBuf (stage buf d) s = lookupBuf buf s := by
  induction buf with
  | nil =>
      have hb : (d.symbol == s) = false := beq_eq_false_iff_ne.mpr (Ne.symm hs)
      simp [stage, lookupBuf, List.find?, hb]
  | cons e rest ih =>
      by_cases h : e.1 = d.symbol
      · have hb : (e.1 == s) = false := beq_eq_false_iff_ne.mpr (h ▸ Ne.symm hs)
        simp [stage, if_pos h, lookupBuf, List.find?, hb]
      · by_cases he : e.1 = s
        · have hb : (e.1 == s) = true := beq_iff_eq.mpr he
          simp [stage, if_neg h, lookupBuf, List.find?, hb]
        · have hb : (e.1 == s) = false := beq_eq_false_iff_ne.mpr he
          simp only [stage, if_neg h]
          simpa [lookupBuf, List.find?, hb] using ih

lemma runOps_nodup (ops : List BufOp) (buf : List (String × PriceData))
    (hn : KeysNodup buf) : KeysNodup (runOps ops buf) := by
  induction ops generalizing buf with
  | nil => simpa [runOps] using hn
  | cons op rest ih =>
      cases op with
      | stageOp d => exact ih (stage buf d) (stage_nodup buf d hn)
      | drainOp => exact ih (drain buf).2 (by simp [KeysNodup, drain])

/-- C7. The broadcast buffer holds at most one staged fact per symbol and
this invariant is preserved by every interleaving of stage and drain
operations starting from the empty buffer; staging overwrites the entry
for the staged fact's symbol (and only that entry), so the retained fact
is always the most recently staged one; and drain returns exactly the
staged facts and leaves the buffer empty. -/
theorem buffer_invariant (ops : List BufOp) (buf : List (String × PriceData))
    (d : PriceData) (s : String) (hn : KeysNodup buf) :
    KeysNodup (runOps ops []) ∧
    KeysNodup (stage buf d) ∧
    lookupBuf (stage buf d) d.symbol = some d ∧
    (s ≠ d.symbol → lookupBuf (stage buf d) s = lookupBuf buf s) ∧
    drain buf = (buf.map Prod.snd, []) :=
  ⟨runOps_nodup ops [] (by simp [KeysNodup]),
   stage_nodup buf d hn,
   lookupBuf_stage_self buf d,
   fun hs => lookupBuf_stage_other buf d s hs,
   rfl⟩

/-- C7 witness: the theorem at a concrete interleaving and a concrete
one-entry buffer. -/
theorem buffer_invariant_witness :
    KeysNodup (stage [("ETH", sampleFact)] sampleFact) ∧
    lookupBuf (stage [("ETH", sampleFact)] sampleFact) sampleFact.symbol =
      some sampleFact ∧
    lookupBuf (stage [("ETH", sampleFact)] sampleFact) "ETH" =
      lookupBuf [("ETH", sampleFact)] "ETH" :=
  ⟨(buffer_invariant [.stageOp sampleFact, .drainOp] [("ETH", sampleFact)]
      sampleFact "ETH" (by decide)).2.1,
   (buffer_invariant [.stageOp sampleFact, .drainOp] [("ETH", sampleFact)]
      sampleFact "ETH" (by decide)).2.2.1,
   (buffer_invariant [.stageOp sampleFact, .drainOp] [("ETH", sampleFact)]
      sampleFact "ETH" (by decide)).2.2.2.1 (by decide)⟩

/-- JS truthiness of an optional string field (absent and `""` are falsy). -/
def truthyStr : Option String → Bool
  | none => false
  | some s => s != ""

/-- JS truthiness of an optional numeric field (absent and `0` are falsy). -/
def truthyNum : Option ℚ → Bool
  | none => false
  | some q => q != 0

/-- A successfully parsed queue message, with the fields the consumer
reads; each is optional since the JSON payload may omit it. -/
structure Msg where
  symbol : Option String
  price : Option ℚ
  volume24h : Option ℚ
  marketCap : Option ℚ
deriving DecidableEq, Repr

/-- The consumer callback registered on `crypto_prices` (lines 137-158 of
`dataService`): guard `data && data.symbol && data.price`, then update
the current price, run the rebase check, build the full `PriceData`
(overriding volume/market cap when the message carries truthy values) and
stage it into the broadcast buffer. The `Bool` records whether the body
threw (the history lookup for an unknown symbol is a TypeError, raised
after the current-price write). `data = none` models a parsed falsy
payload such as JSON `null`. -/
def consumerCallback (st : PriceState) (buf : List (String × PriceData))
    (data : Option Msg) (now : ℤ) (rv rc : ℚ) :
    (PriceState × List (String × PriceData)) × Bool :=
  match data with
  | none => ((st, buf), false)
  | some m =>
      match m.symbol, m.price with
      | some sym, some p =>
          if sym != "" && p != 0 then
            if sym ∈ SYMBOLS then
              let st2 := applyFact st sym p now
              let d0 := getPriceData st2 now rv rc sym
              let d1 := if truthyNum m.volume24h
                        then { d0 with volume24h := (m.volume24h.getD 0 : ℚ) } else d0
              let d2 := if truthyNum m.marketCap
                        then { d1 with marketCap := (m.marketCap.getD 0 : ℚ) } else d1
              ((st2, stage buf d2), false)
            else
              (⟨⟨fun x => if x = sym then p else st.currentPrices x,
                 st.priceHistory⟩, buf⟩, true)
          else ((st, buf), false)
      | _, _ => ((st, buf), false)

/-- Broker acknowledgment actions. -/
inductive Ack where
  | ack
  | nackNoRequeue
deriving DecidableEq, Repr

/-- A delivered message as seen by `RabbitMQService.consume`: either its
body fails to parse as JSON, or it parses to a (possibly falsy) value. -/
inductive Payload where
  | malformed
  | parsed (data : Option Msg)

/-- The `channel.consume` handler in `RabbitMQService.consume`:
`JSON.parse` then the callback then `ack`; any throw is caught and
answered with `nack(msg, false, false)` — negative acknowledgment without
requeue. -/
def consumeStep (st : PriceState) (buf : List (String × PriceData))
    (payload : Payload) (now : ℤ) (rv rc : ℚ) :
    (PriceState × List (String × PriceData)) × Ack :=
  match payload with
  | .malformed => ((st, buf), .nackNoRequeue)
  | .parsed data =>
      let r := consumerCallback st buf data now rv rc
      if r.2 then (r.1, .nackNoRequeue) else (r.1, .ack)

/-- C9. A message that parses but lacks a truthy `symbol` or a truthy
`price` (including `price = 0`), or parses to a falsy value, leaves the
price state and the broadcast buffer unchanged and is still acknowledged;
a payload whose parsing throws is negatively acknowledged without
requeue; and in general a message is negatively acknowledged exactly when
its parsing or its handling throws. -/
theorem consume_skip_acks (st : PriceState) (buf : List (String × PriceData))
    (m : Msg) (now : ℤ) (rv rc : ℚ)
    (h : truthyStr m.symbol = false ∨ truthyNum m.price = false) :
    consumeStep st buf (.parsed (some m)) now rv rc = ((st, buf), .ack) ∧
    consumeStep st buf (.parsed none) now rv rc = ((st, buf), .ack) ∧
    consumeStep st buf .malformed now rv rc = ((st, buf), .nackNoRequeue) ∧
    (∀ p : Payload, (consumeStep st buf p now rv rc).2 = .nackNoRequeue ↔
      (p = .malformed ∨ ∃ data, p = .parsed data ∧
        (consumerCallback st buf data now rv rc).2 = true)) := by
  refine ⟨?_, rfl, rfl, ?_⟩
  · obtain ⟨ms, mp, mv, mc⟩ := m
    cases ms with
    | none => rfl
    | some s =>
        cases mp with
        | none => rfl
        | some p =>
            simp only [truthyStr, truthyNum] at h
            have hg : (s != "" && p != 0) = false := by
              rcases h with h | h <;> simp_all
            simp [consumeStep, consumerCallback, hg]
  · intro p
    cases p with
    | malformed => simp [consumeStep]
    | parsed data =>
        cases hr : (consumerCallback st buf data now rv rc).2 <;>
          simp [consumeStep, hr]

/-- C9 witness: a message with `price = 0` for BTC is skipped and acked,
and a malformed payload is nacked without requeue. -/
theorem consume_skip_acks_witness :
    consumeStep (initState 0) [] (.parsed (some ⟨some "BTC", some 0, none, none⟩))
      0 0 0 = (((initState 0), []), .ack) ∧
    consumeStep (initState 0) [] .malformed 0 0 0 =
      (((initState 0), []), .nackNoRequeue) :=
  ⟨(consume_skip_acks (initState 0) [] ⟨some "BTC", some 0, none, none⟩ 0 0 0
      (by decide)).1,
   (consume_skip_acks (initState 0) [] ⟨some "BTC", some 0, none, none⟩ 0 0 0
      (by decide)).2.2.1⟩
